import Mathlib

/-!
Verification development for the lock-free ring-buffer queue family of the
mootils repository (`src/msg/spsc_queue.h`, `src/msg/spmc_queue.h`).

The C++ queues are shallowly embedded as pure Lean functions over explicit
state records.  Cursors are `std::atomic<std::uint64_t>` in the source; they
are modelled as `Nat` with every store reduced modulo `2^64` and every
subtraction performed as 64-bit wraparound subtraction (`u64sub`), exactly as
C++ unsigned arithmetic behaves.  The sequential semantics models each public
operation as one atomic step, which is the linearized behaviour the
specification describes.
-/

namespace Mootils

/-- `2^64`, the modulus of the `std::uint64_t` cursors. -/
def U64 : Nat := 2 ^ 64

/-- 64-bit wraparound subtraction `a - b` on `std::uint64_t` values
(both operands are reduced, result is in `[0, 2^64)`). -/
def u64sub (a b : Nat) : Nat := (a % U64 + (U64 - b % U64)) % U64

/-- Pointwise update of a function-backed array, used for the ring buffer
`m_buffer` and the consumer-slot table `m_slots`. -/
def updFn {β : Type} (f : Nat → β) (i : Nat) (v : β) : Nat → β :=
  fun j => if j = i then v else f j

/-- `to_index` from both queue headers: `static_cast<size_t>(i) & mask` with
`mask = NumSlots - 1` (the cast is the identity on a 64-bit platform). -/
def to_index (numSlots i : Nat) : Nat := i &&& (numSlots - 1)

/-! ## SPSC queue (`src/msg/spsc_queue.h`) -/

/-- State of `msg::SPSCQueue<T, NumSlots>`: the ring buffer, the two cursors
`m_head`/`m_tail` and the two claim flags.  `numSlots` carries the template
parameter `NumSlots`. -/
structure SPSCQueue (α : Type) where
  numSlots : Nat
  m_buffer : Nat → α
  m_head : Nat
  m_tail : Nat
  m_producer_claimed : Bool
  m_consumer_claimed : Bool

/-- A freshly constructed `SPSCQueue<T, 2^k>`: value-initialized buffer, both
cursors zero, neither role claimed.  The exponent form `2^k` captures the
`static_assert` that `NumSlots` is a positive power of two. -/
def SPSCQueue.init {α : Type} (d : α) (k : Nat) : SPSCQueue α :=
  { numSlots := 2 ^ k
    m_buffer := fun _ => d
    m_head := 0
    m_tail := 0
    m_producer_claimed := false
    m_consumer_claimed := false }

/-- `SPSCQueue::push_impl`: fail ("full") when `head - tail >= NumSlots`
(64-bit subtraction), otherwise write the item at `to_index(head)` and
publish `head + 1`. -/
def SPSCQueue.push_impl {α : Type} (q : SPSCQueue α) (item : α) :
    Bool × SPSCQueue α :=
  let head := q.m_head
  let tail := q.m_tail
  if q.numSlots ≤ u64sub head tail then
    (false, q)
  else
    (true, { q with
      m_buffer := updFn q.m_buffer (to_index q.numSlots head) item
      m_head := (head + 1) % U64 })

/-- `SPSCQueue::pop_impl`: return `nullopt` ("empty") when `tail >= head`,
otherwise read the slot at `to_index(tail)` and advance `tail`. -/
def SPSCQueue.pop_impl {α : Type} (q : SPSCQueue α) :
    Option α × SPSCQueue α :=
  let head := q.m_head
  let tail := q.m_tail
  if head ≤ tail then
    (none, q)
  else
    (some (q.m_buffer (to_index q.numSlots tail)),
     { q with m_tail := (tail + 1) % U64 })

/-- `SPSCQueue::try_pop_impl`: same control flow as `pop_impl`, but the item
is written into the caller-supplied `out`; the pre-call contents of `out` are
kept when the queue is empty. -/
def SPSCQueue.try_pop_impl {α : Type} (q : SPSCQueue α) (out : α) :
    Bool × α × SPSCQueue α :=
  let head := q.m_head
  let tail := q.m_tail
  if head ≤ tail then
    (false, out, q)
  else
    (true, q.m_buffer (to_index q.numSlots tail),
     { q with m_tail := (tail + 1) % U64 })

/-- `SPSCQueue::count_snapshot_impl`: `head - tail` (64-bit subtraction),
clamped to `NumSlots` when the difference exceeds it. -/
def SPSCQueue.count_snapshot_impl {α : Type} (q : SPSCQueue α) : Nat :=
  let diff := u64sub q.m_head q.m_tail
  if q.numSlots < diff then q.numSlots else diff

/-- Handle `SPSCQueue::Producer`.  `m_queue = true` models a non-null
`m_queue` pointer (there is a single queue in scope, so the pointer carries
one bit of information). -/
structure SPSCQueue.Producer where
  m_queue : Bool

/-- Handle `SPSCQueue::Consumer` (same pointer model as `Producer`). -/
structure SPSCQueue.Consumer where
  m_queue : Bool

/-- `SPSCQueue::Producer::~Producer`: a handle with a non-null queue pointer
clears `m_producer_claimed`; a moved-from (null) handle does nothing. -/
def SPSCQueue.Producer.dtor {α : Type} (p : SPSCQueue.Producer)
    (q : SPSCQueue α) : SPSCQueue α :=
  if p.m_queue then { q with m_producer_claimed := false } else q

/-- `SPSCQueue::Producer` move constructor: the new handle takes the queue
pointer, the source is left null. -/
def SPSCQueue.Producer.moveCtor (other : SPSCQueue.Producer) :
    SPSCQueue.Producer × SPSCQueue.Producer :=
  ({ m_queue := other.m_queue }, { m_queue := false })

/-- `SPSCQueue::Producer` move assignment (`this ≠ &other`): release the
claim held by `this` (if any), take `other`'s pointer, null out `other`.
Returns (new `this`, new `other`, queue state). -/
def SPSCQueue.Producer.moveAssign {α : Type} (t other : SPSCQueue.Producer)
    (q : SPSCQueue α) :
    SPSCQueue.Producer × SPSCQueue.Producer × SPSCQueue α :=
  ({ m_queue := other.m_queue }, { m_queue := false },
   if t.m_queue then { q with m_producer_claimed := false } else q)

/-- `SPSCQueue::Consumer::~Consumer`. -/
def SPSCQueue.Consumer.dtor {α : Type} (c : SPSCQueue.Consumer)
    (q : SPSCQueue α) : SPSCQueue α :=
  if c.m_queue then { q with m_consumer_claimed := false } else q

/-- `SPSCQueue::Consumer` move constructor. -/
def SPSCQueue.Consumer.moveCtor (other : SPSCQueue.Consumer) :
    SPSCQueue.Consumer × SPSCQueue.Consumer :=
  ({ m_queue := other.m_queue }, { m_queue := false })

/-- `SPSCQueue::Consumer` move assignment (`this ≠ &other`). -/
def SPSCQueue.Consumer.moveAssign {α : Type} (t other : SPSCQueue.Consumer)
    (q : SPSCQueue α) :
    SPSCQueue.Consumer × SPSCQueue.Consumer × SPSCQueue α :=
  ({ m_queue := other.m_queue }, { m_queue := false },
   if t.m_queue then { q with m_consumer_claimed := false } else q)

/-- `SPSCQueue::make_producer`: the `compare_exchange_strong(false, true)` on
`m_producer_claimed` succeeds exactly when the flag is clear. -/
def SPSCQueue.make_producer {α : Type} (q : SPSCQueue α) :
    Option SPSCQueue.Producer × SPSCQueue α :=
  if q.m_producer_claimed then
    (none, q)
  else
    (some { m_queue := true }, { q with m_producer_claimed := true })

/-- `SPSCQueue::make_consumer`: same CAS gate on `m_consumer_claimed`. -/
def SPSCQueue.make_consumer {α : Type} (q : SPSCQueue α) :
    Option SPSCQueue.Consumer × SPSCQueue α :=
  if q.m_consumer_claimed then
    (none, q)
  else
    (some { m_queue := true }, { q with m_consumer_claimed := true })

/-- Helper: push each value of `vs` in order, collecting the success flags. -/
def SPSCQueue.pushAll {α : Type} (q : SPSCQueue α) :
    List α → List Bool × SPSCQueue α
  | [] => ([], q)
  | v :: vs =>
    let r := q.push_impl v
    let rs := r.2.pushAll vs
    (r.1 :: rs.1, rs.2)

/-- Helper: pop `n` times in sequence, collecting the results. -/
def SPSCQueue.popN {α : Type} (q : SPSCQueue α) :
    Nat → List (Option α) × SPSCQueue α
  | 0 => ([], q)
  | n + 1 =>
    let r := q.pop_impl
    let rs := r.2.popN n
    (r.1 :: rs.1, rs.2)

/-- The abstract value of the queue: the pending items, oldest first, read
from the ring exactly as `pop_impl` would read them (meaningful in the
non-wrapped regime `m_tail ≤ m_head`). -/
def SPSCQueue.contents {α : Type} (q : SPSCQueue α) : List α :=
  (List.range (q.m_head - q.m_tail)).map
    (fun j => q.m_buffer (to_index q.numSlots (q.m_tail + j)))

/-- One public operation on an `SPSCQueue`, for reachability reasoning.
`dropProducer` / `dropConsumer` are the handle destructors of live handles. -/
inductive SPSCOp (α : Type) where
  | push (v : α)
  | pop
  | tryPop
  | makeProducer
  | makeConsumer
  | dropProducer
  | dropConsumer

/-- State transition of one `SPSCOp` (the value returned by the operation is
discarded; `tryPop`'s `out` argument does not influence the state). -/
def SPSCQueue.step {α : Type} (q : SPSCQueue α) : SPSCOp α → SPSCQueue α
  | SPSCOp.push v => (q.push_impl v).2
  | SPSCOp.pop => q.pop_impl.2
  | SPSCOp.tryPop => q.pop_impl.2
  | SPSCOp.makeProducer => (q.make_producer).2
  | SPSCOp.makeConsumer => (q.make_consumer).2
  | SPSCOp.dropProducer => { q with m_producer_claimed := false }
  | SPSCOp.dropConsumer => { q with m_consumer_claimed := false }

/-- Run a sequence of operations. -/
def SPSCQueue.run {α : Type} (q : SPSCQueue α) (ops : List (SPSCOp α)) :
    SPSCQueue α :=
  ops.foldl SPSCQueue.step q

/-! ## SPMC broadcast queue (`src/msg/spmc_queue.h`) -/

/-- `SPMCQueue::SlotState`. -/
inductive SlotState where
  | Free
  | Initializing
  | Active
deriving DecidableEq, Repr

/-- `SPMCQueue::ConsumerSlot`: lifecycle state plus that consumer's cursor. -/
structure ConsumerSlot where
  state : SlotState
  tail : Nat
deriving DecidableEq, Repr

/-- State of `msg::SPMCQueue<T, NumSlots, MaxConsumers>`. -/
structure SPMCQueue (α : Type) where
  numSlots : Nat
  maxConsumers : Nat
  m_buffer : Nat → α
  m_head : Nat
  m_slots : Nat → ConsumerSlot
  m_producer_claimed : Bool

/-- A freshly constructed `SPMCQueue<T, 2^k, mc>`: head zero, every consumer
slot `{Free, 0}`, producer unclaimed. -/
def SPMCQueue.init {α : Type} (d : α) (k mc : Nat) : SPMCQueue α :=
  { numSlots := 2 ^ k
    maxConsumers := mc
    m_buffer := fun _ => d
    m_head := 0
    m_slots := fun _ => { state := SlotState.Free, tail := 0 }
    m_producer_claimed := false }

/-- Loop body of `SPMCQueue::min_tail_snapshot`: fold state is
`(min_tail, any)`; an `Active` slot sets `any` and lowers `min_tail`. -/
def minStep (slots : Nat → ConsumerSlot) (acc : Nat × Bool) (i : Nat) :
    Nat × Bool :=
  let slot := slots i
  if slot.state = SlotState.Active then
    ((if slot.tail < acc.1 then slot.tail else acc.1), true)
  else acc

/-- `SPMCQueue::min_tail_snapshot`: scan the slot table, taking the minimum
tail over `Active` slots (the minimum is seeded with `head`); with no active
slot the result falls back to `head`. -/
def SPMCQueue.min_tail_snapshot {α : Type} (q : SPMCQueue α) (head : Nat) :
    Nat :=
  let r := (List.range q.maxConsumers).foldl (minStep q.m_slots) (head, false)
  if r.2 then r.1 else head

/-- `SPMCQueue::push_impl`: fail ("full") when
`head - min_tail_snapshot(head) >= NumSlots` (64-bit subtraction), otherwise
write at `to_index(head)` and publish `head + 1`. -/
def SPMCQueue.push_impl {α : Type} (q : SPMCQueue α) (item : α) :
    Bool × SPMCQueue α :=
  let head := q.m_head
  let min_tail := q.min_tail_snapshot head
  if q.numSlots ≤ u64sub head min_tail then
    (false, q)
  else
    (true, { q with
      m_buffer := updFn q.m_buffer (to_index q.numSlots head) item
      m_head := (head + 1) % U64 })

/-- `SPMCQueue::pop_impl(idx)`: pop against slot `idx`'s own cursor. -/
def SPMCQueue.pop_impl {α : Type} (q : SPMCQueue α) (idx : Nat) :
    Option α × SPMCQueue α :=
  let head := q.m_head
  let tail := (q.m_slots idx).tail
  if head ≤ tail then
    (none, q)
  else
    (some (q.m_buffer (to_index q.numSlots tail)),
     { q with m_slots :=
                updFn q.m_slots idx
                  ({ q.m_slots idx with tail := (tail + 1) % U64 }) })

/-- `SPMCQueue::try_pop_impl(out, idx)`. -/
def SPMCQueue.try_pop_impl {α : Type} (q : SPMCQueue α) (out : α)
    (idx : Nat) : Bool × α × SPMCQueue α :=
  let head := q.m_head
  let tail := (q.m_slots idx).tail
  if head ≤ tail then
    (false, out, q)
  else
    (true, q.m_buffer (to_index q.numSlots tail),
     { q with m_slots :=
                updFn q.m_slots idx
                  ({ q.m_slots idx with tail := (tail + 1) % U64 }) })

/-- `SPMCQueue::count_snapshot_impl(idx)`: `head - tail(idx)` clamped to
`NumSlots`. -/
def SPMCQueue.count_snapshot_impl_idx {α : Type} (q : SPMCQueue α)
    (idx : Nat) : Nat :=
  let diff := u64sub q.m_head (q.m_slots idx).tail
  if q.numSlots < diff then q.numSlots else diff

/-- `SPMCQueue::count_snapshot_impl()` (producer view): based on the slowest
active consumer, clamped to `NumSlots`. -/
def SPMCQueue.count_snapshot_impl {α : Type} (q : SPMCQueue α) : Nat :=
  let diff := u64sub q.m_head (q.min_tail_snapshot q.m_head)
  if q.numSlots < diff then q.numSlots else diff

/-- Handle `SPMCQueue::Producer`. -/
structure SPMCQueue.Producer where
  m_queue : Bool

/-- Handle `SPMCQueue::Consumer`: queue pointer plus owned slot index. -/
structure SPMCQueue.Consumer where
  m_queue : Bool
  m_slot_idx : Nat

/-- `SPMCQueue::Producer::~Producer`. -/
def SPMCQueue.Producer.dtor {α : Type} (p : SPMCQueue.Producer)
    (q : SPMCQueue α) : SPMCQueue α :=
  if p.m_queue then { q with m_producer_claimed := false } else q

/-- `SPMCQueue::Producer` move constructor. -/
def SPMCQueue.Producer.moveCtor (other : SPMCQueue.Producer) :
    SPMCQueue.Producer × SPMCQueue.Producer :=
  ({ m_queue := other.m_queue }, { m_queue := false })

/-- `SPMCQueue::Producer` move assignment (`this ≠ &other`). -/
def SPMCQueue.Producer.moveAssign {α : Type} (t other : SPMCQueue.Producer)
    (q : SPMCQueue α) :
    SPMCQueue.Producer × SPMCQueue.Producer × SPMCQueue α :=
  ({ m_queue := other.m_queue }, { m_queue := false },
   if t.m_queue then { q with m_producer_claimed := false } else q)

/-- `SPMCQueue::Consumer::~Consumer`: a live handle resets its slot's tail to
zero and transitions the slot to `Free`. -/
def SPMCQueue.Consumer.dtor {α : Type} (c : SPMCQueue.Consumer)
    (q : SPMCQueue α) : SPMCQueue α :=
  if c.m_queue then
    { q with m_slots :=
               updFn q.m_slots c.m_slot_idx
                 ({ state := SlotState.Free, tail := 0 }) }
  else q

/-- `SPMCQueue::Consumer` move constructor: the new handle takes the queue
pointer and the slot index; the source pointer is nulled (its `m_slot_idx`
is left as is). -/
def SPMCQueue.Consumer.moveCtor (other : SPMCQueue.Consumer) :
    SPMCQueue.Consumer × SPMCQueue.Consumer :=
  ({ m_queue := other.m_queue, m_slot_idx := other.m_slot_idx },
   { m_queue := false, m_slot_idx := other.m_slot_idx })

/-- `SPMCQueue::Consumer` move assignment (`this ≠ &other`): a live `this`
frees its old slot (state only — the source does not reset the tail here),
then takes `other`'s pointer and index. -/
def SPMCQueue.Consumer.moveAssign {α : Type} (t other : SPMCQueue.Consumer)
    (q : SPMCQueue α) :
    SPMCQueue.Consumer × SPMCQueue.Consumer × SPMCQueue α :=
  ({ m_queue := other.m_queue, m_slot_idx := other.m_slot_idx },
   { m_queue := false, m_slot_idx := other.m_slot_idx },
   if t.m_queue then
     { q with m_slots :=
                updFn q.m_slots t.m_slot_idx
                  ({ q.m_slots t.m_slot_idx with state := SlotState.Free }) }
   else q)

/-- `SPMCQueue::make_producer`. -/
def SPMCQueue.make_producer {α : Type} (q : SPMCQueue α) :
    Option SPMCQueue.Producer × SPMCQueue α :=
  if q.m_producer_claimed then
    (none, q)
  else
    (some { m_queue := true }, { q with m_producer_claimed := true })

/-- `SPMCQueue::make_consumer`: scan for the first `Free` slot; the winning
CAS (`Free → Initializing`), `tail := head` store and `Initializing → Active`
store execute without interference in the sequential semantics, so the slot
ends at `{Active, head}` with `head` the producer cursor at attach time. -/
def SPMCQueue.make_consumer {α : Type} (q : SPMCQueue α) :
    Option SPMCQueue.Consumer × SPMCQueue α :=
  let head := q.m_head
  match (List.range q.maxConsumers).find?
      (fun i => (q.m_slots i).state == SlotState.Free) with
  | some i =>
    (some { m_queue := true, m_slot_idx := i },
     { q with m_slots :=
                updFn q.m_slots i
                  ({ state := SlotState.Active, tail := head }) })
  | none => (none, q)

/-- One public operation on an `SPMCQueue`.  Indexed operations act through a
live consumer handle that owns slot `idx`. -/
inductive SPMCOp (α : Type) where
  | push (v : α)
  | pop (idx : Nat)
  | tryPop (idx : Nat)
  | makeProducer
  | makeConsumer
  | dropProducer
  | dropConsumer (idx : Nat)

/-- State transition of one `SPMCOp`. -/
def SPMCQueue.step {α : Type} (q : SPMCQueue α) : SPMCOp α → SPMCQueue α
  | SPMCOp.push v => (q.push_impl v).2
  | SPMCOp.pop idx => (q.pop_impl idx).2
  | SPMCOp.tryPop idx => (q.pop_impl idx).2
  | SPMCOp.makeProducer => (q.make_producer).2
  | SPMCOp.makeConsumer => (q.make_consumer).2
  | SPMCOp.dropProducer => { q with m_producer_claimed := false }
  | SPMCOp.dropConsumer idx =>
      SPMCQueue.Consumer.dtor { m_queue := true, m_slot_idx := idx } q

/-- Run a sequence of operations. -/
def SPMCQueue.run {α : Type} (q : SPMCQueue α) (ops : List (SPMCOp α)) :
    SPMCQueue α :=
  ops.foldl SPMCQueue.step q

/-- `true` when the operation acts on consumer slot `j` (used to say "the
consumer owning slot `j` performs no operation"). -/
def SPMCOp.touchesSlot {α : Type} (j : Nat) : SPMCOp α → Bool
  | SPMCOp.pop idx => idx == j
  | SPMCOp.tryPop idx => idx == j
  | SPMCOp.dropConsumer idx => idx == j
  | _ => false

/-! ## Arithmetic facts about 64-bit cursors -/

theorem U64_pos : 0 < U64 := by norm_num [U64]

/-- In the non-wrapped regime the 64-bit subtraction is the plain one. -/
theorem u64sub_of_le {a b : Nat} (hb : b ≤ a) (ha : a < U64) :
    u64sub a b = a - b := by
  have hbU : b < U64 := lt_of_le_of_lt hb ha
  unfold u64sub
  rw [Nat.mod_eq_of_lt ha, Nat.mod_eq_of_lt hbU]
  have h1 : a + (U64 - b) = U64 + (a - b) := by omega
  rw [h1, Nat.add_mod_left, Nat.mod_eq_of_lt (by omega)]

/-- Bumping the minuend by one (with wraparound) bumps the difference by one
(with wraparound). -/
theorem u64sub_succ_left (a b : Nat) :
    u64sub ((a + 1) % U64) b = (u64sub a b + 1) % U64 := by
  unfold u64sub
  rw [Nat.mod_mod_of_dvd _ (dvd_refl U64), Nat.mod_add_mod, Nat.mod_add_mod]
  conv_rhs => rw [Nat.add_assoc, Nat.mod_add_mod]
  congr 1
  omega

/-- `to_index` is reduction modulo the power-of-two capacity. -/
theorem to_index_eq_mod (k i : Nat) : to_index (2 ^ k) i = i % 2 ^ k :=
  Nat.and_pow_two_sub_one_eq_mod i k

/-- Two cursors less than one capacity apart land on distinct storage
indices. -/
theorem to_index_ne_of_window (k a b : Nat) (hab : a < b)
    (hwin : b - a < 2 ^ k) : to_index (2 ^ k) a ≠ to_index (2 ^ k) b := by
  rw [to_index_eq_mod, to_index_eq_mod]
  intro h
  have hd : (2 ^ k : Nat) ∣ b - a := (Nat.modEq_iff_dvd' (le_of_lt hab)).mp h
  have hle : (2 ^ k : Nat) ≤ b - a := Nat.le_of_dvd (by omega) hd
  omega

/-! ## SPSC queue: structural lemmas -/

theorem SPSCQueue.push_impl_success {α : Type} (q : SPSCQueue α) (v : α)
    (hts : q.m_tail ≤ q.m_head) (hh : q.m_head < U64)
    (hroom : q.m_head - q.m_tail < q.numSlots) :
    q.push_impl v =
      (true, { q with
        m_buffer := updFn q.m_buffer (to_index q.numSlots q.m_head) v
        m_head := (q.m_head + 1) % U64 }) := by
  unfold SPSCQueue.push_impl
  dsimp only
  rw [u64sub_of_le hts hh]
  simp only [Nat.not_le.mpr hroom, if_false]

theorem SPSCQueue.push_impl_full {α : Type} (q : SPSCQueue α) (v : α)
    (hfull : q.numSlots ≤ u64sub q.m_head q.m_tail) :
    q.push_impl v = (false, q) := by
  unfold SPSCQueue.push_impl
  simp only [hfull, if_true]

theorem SPSCQueue.pop_impl_spec {α : Type} (q : SPSCQueue α)
    (hne : q.m_tail < q.m_head) (hh : q.m_head < U64) :
    q.pop_impl = (some (q.m_buffer (to_index q.numSlots q.m_tail)),
      { q with m_tail := q.m_tail + 1 }) := by
  unfold SPSCQueue.pop_impl
  dsimp only
  rw [Nat.mod_eq_of_lt (by omega)]
  simp only [Nat.not_le.mpr hne, if_false]

theorem SPSCQueue.pop_impl_empty {α : Type} (q : SPSCQueue α)
    (he : q.m_head ≤ q.m_tail) : q.pop_impl = (none, q) := by
  unfold SPSCQueue.pop_impl
  simp only [he, if_true]

theorem SPSCQueue.contents_empty {α : Type} (q : SPSCQueue α)
    (he : q.m_head ≤ q.m_tail) : q.contents = [] := by
  unfold SPSCQueue.contents
  rw [Nat.sub_eq_zero_of_le he]
  simp

theorem SPSCQueue.contents_push {α : Type} (q : SPSCQueue α) (v : α)
    (k : Nat) (hns : q.numSlots = 2 ^ k)
    (hts : q.m_tail ≤ q.m_head) (hh : q.m_head + 1 < U64)
    (hroom : q.m_head - q.m_tail < q.numSlots) :
    (q.push_impl v).2.contents = q.contents ++ [v] := by
  rw [SPSCQueue.push_impl_success q v hts (by omega) hroom]
  unfold SPSCQueue.contents
  simp only
  rw [Nat.mod_eq_of_lt hh]
  have hd : q.m_head + 1 - q.m_tail = (q.m_head - q.m_tail) + 1 := by omega
  rw [hd, List.range_succ, List.map_append]
  congr 1
  · refine List.map_congr_left (fun j hj => ?_)
    rw [List.mem_range] at hj
    have hlt : q.m_tail + j < q.m_head := by omega
    have hne2 : to_index q.numSlots (q.m_tail + j) ≠ to_index q.numSlots q.m_head := by
      rw [hns]
      exact to_index_ne_of_window k _ _ hlt (by omega)
    simp [updFn, hne2]
  · have he : q.m_tail + (q.m_head - q.m_tail) = q.m_head := by omega
    simp only [List.map_cons, List.map_nil]
    rw [he]
    simp [updFn]

theorem SPSCQueue.contents_pop {α : Type} (q : SPSCQueue α)
    (hne : q.m_tail < q.m_head) (hh : q.m_head < U64) :
    q.contents = q.m_buffer (to_index q.numSlots q.m_tail) :: (q.pop_impl).2.contents := by
  rw [SPSCQueue.pop_impl_spec q hne hh]
  unfold SPSCQueue.contents
  dsimp only
  obtain ⟨m, hm⟩ : ∃ m, q.m_head - q.m_tail = m + 1 :=
    ⟨q.m_head - q.m_tail - 1, by omega⟩
  have hm2 : q.m_head - (q.m_tail + 1) = m := by omega
  rw [hm, hm2, List.range_succ_eq_map]
  simp only [List.map_cons, List.map_map, Nat.add_zero]
  congr 1
  refine List.map_congr_left (fun j hj => ?_)
  simp only [Function.comp_apply]
  congr 2
  omega

theorem SPSCQueue.pushAll_spec {α : Type} (k : Nat) (vs : List α) :
    ∀ (q : SPSCQueue α), q.numSlots = 2 ^ k → q.m_tail ≤ q.m_head →
    q.m_head - q.m_tail + vs.length ≤ q.numSlots →
    q.m_head + vs.length < U64 →
    (q.pushAll vs).1 = List.replicate vs.length true ∧
    (q.pushAll vs).2.contents = q.contents ++ vs ∧
    (q.pushAll vs).2.m_head = q.m_head + vs.length ∧
    (q.pushAll vs).2.m_tail = q.m_tail ∧
    (q.pushAll vs).2.numSlots = q.numSlots := by
  induction vs with
  | nil =>
    intro q hns hts hroom hh
    simp [SPSCQueue.pushAll]
  | cons v vs ih =>
    intro q hns hts hroom hh
    simp only [List.length_cons] at hroom hh
    have hroom1 : q.m_head - q.m_tail < q.numSlots := by omega
    have hh1 : q.m_head + 1 < U64 := by omega
    have hsucc := SPSCQueue.push_impl_success q v hts (by omega) hroom1
    have hcp := SPSCQueue.contents_push q v k hns hts hh1 hroom1
    rw [hsucc] at hcp
    unfold SPSCQueue.pushAll
    rw [hsucc]
    dsimp only
    have hmod : (q.m_head + 1) % U64 = q.m_head + 1 := Nat.mod_eq_of_lt hh1
    have hih := ih { q with
        m_buffer := updFn q.m_buffer (to_index q.numSlots q.m_head) v
        m_head := (q.m_head + 1) % U64 }
      (by simpa) (by simp [hmod]; omega)
      (by simp [hmod]; omega) (by simp [hmod]; omega)
    refine ⟨?_, ?_, ?_, ?_, ?_⟩
    · rw [List.length_cons, List.replicate_succ]
      simp [hih.1]
    · rw [hih.2.1, hcp]
      simp
    · rw [hih.2.2.1]
      simp [hmod]
      omega
    · exact hih.2.2.2.1
    · exact hih.2.2.2.2
  
theorem SPSCQueue.popN_spec {α : Type} (cs : List α) :
    ∀ (q : SPSCQueue α), q.contents = cs → q.m_tail ≤ q.m_head →
    q.m_head < U64 →
    (q.popN cs.length).1 = cs.map some := by
  induction cs with
  | nil =>
    intro q _ _ _
    simp [SPSCQueue.popN]
  | cons c cs ih =>
    intro q hc hts hh
    have hlen : q.m_head - q.m_tail = cs.length + 1 := by
      have hl := congrArg List.length hc
      simpa [SPSCQueue.contents] using hl
    have hne : q.m_tail < q.m_head := by omega
    have hcp := SPSCQueue.contents_pop q hne hh
    rw [hc] at hcp
    have hchead : c = q.m_buffer (to_index q.numSlots q.m_tail) :=
      (List.cons.injEq _ _ _ _ ▸ hcp).1
    have hctail : (q.pop_impl).2.contents = cs :=
      ((List.cons.injEq _ _ _ _ ▸ hcp).2).symm
    have hpop := SPSCQueue.pop_impl_spec q hne hh
    rw [List.length_cons]
    unfold SPSCQueue.popN
    rw [hpop]
    dsimp only
    have hih := ih { q with m_tail := q.m_tail + 1 }
      (by rw [hpop] at hctail; exact hctail) (by simp; omega) (by simpa)
    simp [hih, hchead]

/-! ## SPSC queue: invariant preservation (capacity bound) -/

theorem SPSCQueue.pop_state_inv {α : Type} (q : SPSCQueue α)
    (hinv : u64sub q.m_head q.m_tail ≤ q.numSlots)
    (hh : q.m_head < U64) (ht : q.m_tail < U64) :
    u64sub (q.pop_impl).2.m_head (q.pop_impl).2.m_tail ≤ (q.pop_impl).2.numSlots ∧
    (q.pop_impl).2.m_head < U64 ∧ (q.pop_impl).2.m_tail < U64 ∧
    (q.pop_impl).2.numSlots = q.numSlots := by
  by_cases he : q.m_head ≤ q.m_tail
  · rw [SPSCQueue.pop_impl_empty q he]
    exact ⟨hinv, hh, ht, rfl⟩
  · push_neg at he
    rw [SPSCQueue.pop_impl_spec q he hh]
    dsimp only
    have h1 : u64sub q.m_head (q.m_tail + 1) = q.m_head - (q.m_tail + 1) :=
      u64sub_of_le (by omega) hh
    have h2 : u64sub q.m_head q.m_tail = q.m_head - q.m_tail :=
      u64sub_of_le (by omega) hh
    rw [h1]
    rw [h2] at hinv
    exact ⟨by omega, hh, by omega, rfl⟩

theorem SPSCQueue.step_inv {α : Type} (q : SPSCQueue α) (op : SPSCOp α)
    (hinv : u64sub q.m_head q.m_tail ≤ q.numSlots)
    (hh : q.m_head < U64) (ht : q.m_tail < U64) :
    u64sub (q.step op).m_head (q.step op).m_tail ≤ (q.step op).numSlots ∧
    (q.step op).m_head < U64 ∧ (q.step op).m_tail < U64 ∧
    (q.step op).numSlots = q.numSlots := by
  cases op with
  | push v =>
    unfold SPSCQueue.step SPSCQueue.push_impl
    dsimp only
    by_cases hc : q.numSlots ≤ u64sub q.m_head q.m_tail
    · rw [if_pos hc]
      exact ⟨hinv, hh, ht, rfl⟩
    · rw [if_neg hc]
      push_neg at hc
      refine ⟨?_, Nat.mod_lt _ U64_pos, ht, rfl⟩
      rw [u64sub_succ_left]
      calc (u64sub q.m_head q.m_tail + 1) % U64
          ≤ u64sub q.m_head q.m_tail + 1 := Nat.mod_le _ _
        _ ≤ q.numSlots := by omega
  | pop => exact SPSCQueue.pop_state_inv q hinv hh ht
  | tryPop => exact SPSCQueue.pop_state_inv q hinv hh ht
  | makeProducer =>
    unfold SPSCQueue.step SPSCQueue.make_producer
    by_cases hc : q.m_producer_claimed <;> simp [hc, hinv, hh, ht]
  | makeConsumer =>
    unfold SPSCQueue.step SPSCQueue.make_consumer
    by_cases hc : q.m_consumer_claimed <;> simp [hc, hinv, hh, ht]
  | dropProducer => exact ⟨hinv, hh, ht, rfl⟩
  | dropConsumer => exact ⟨hinv, hh, ht, rfl⟩

theorem SPSCQueue.run_inv {α : Type} (ops : List (SPSCOp α)) :
    ∀ (q : SPSCQueue α),
    u64sub q.m_head q.m_tail ≤ q.numSlots → q.m_head < U64 → q.m_tail < U64 →
    u64sub (q.run ops).m_head (q.run ops).m_tail ≤ (q.run ops).numSlots ∧
    (q.run ops).m_head < U64 ∧ (q.run ops).m_tail < U64 ∧
    (q.run ops).numSlots = q.numSlots := by
  induction ops with
  | nil =>
    intro q h1 h2 h3
    exact ⟨h1, h2, h3, rfl⟩
  | cons op ops ih =>
    intro q h1 h2 h3
    have hs := SPSCQueue.step_inv q op h1 h2 h3
    have hrun : q.run (op :: ops) = (q.step op).run ops := rfl
    rw [hrun]
    have hih := ih (q.step op) hs.1 hs.2.1 hs.2.2.1
    exact ⟨hih.1, hih.2.1, hih.2.2.1, hih.2.2.2.trans hs.2.2.2⟩

/-! ## SPMC queue: the minimum-cursor scan -/

theorem foldl_minStep_fst_le (s : Nat → ConsumerSlot) (l : List Nat) :
    ∀ acc : Nat × Bool, (l.foldl (minStep s) acc).1 ≤ acc.1 := by
  induction l with
  | nil => intro acc; exact le_refl _
  | cons i l ih =>
    intro acc
    rw [List.foldl_cons]
    refine le_trans (ih (minStep s acc i)) ?_
    unfold minStep
    dsimp only
    split
    · dsimp only
      split <;> omega
    · exact le_refl _

theorem foldl_minStep_snd_true (s : Nat → ConsumerSlot) (l : List Nat) :
    ∀ acc : Nat × Bool, acc.2 = true → (l.foldl (minStep s) acc).2 = true := by
  induction l with
  | nil => intro acc h; exact h
  | cons i l ih =>
    intro acc h
    rw [List.foldl_cons]
    refine ih (minStep s acc i) ?_
    unfold minStep
    dsimp only
    split
    · rfl
    · exact h

theorem foldl_minStep_active (s : Nat → ConsumerSlot) (l : List Nat) (j : Nat)
    (hj : j ∈ l) (hA : (s j).state = SlotState.Active) :
    ∀ acc : Nat × Bool,
    (l.foldl (minStep s) acc).1 ≤ (s j).tail ∧
    (l.foldl (minStep s) acc).2 = true := by
  induction l with
  | nil => cases hj
  | cons i l ih =>
    intro acc
    rw [List.foldl_cons]
    rcases List.mem_cons.mp hj with rfl | hj2
    · constructor
      · refine le_trans (foldl_minStep_fst_le s l _) ?_
        unfold minStep
        dsimp only
        rw [if_pos hA]
        dsimp only
        split <;> omega
      · refine foldl_minStep_snd_true s l _ ?_
        unfold minStep
        dsimp only
        rw [if_pos hA]
    · exact ih hj2 _

theorem foldl_minStep_no_active (s : Nat → ConsumerSlot) (l : List Nat)
    (h : ∀ j ∈ l, (s j).state ≠ SlotState.Active) :
    ∀ acc : Nat × Bool, l.foldl (minStep s) acc = acc := by
  induction l with
  | nil => intro acc; rfl
  | cons i l ih =>
    intro acc
    rw [List.foldl_cons]
    have hstep : minStep s acc i = acc := by
      unfold minStep
      dsimp only
      rw [if_neg (h i (List.mem_cons_self i l))]
    rw [hstep]
    exact ih (fun j hj => h j (List.mem_cons_of_mem i hj)) acc

theorem foldl_minStep_congr (s1 s2 : Nat → ConsumerSlot) (l : List Nat)
    (h : ∀ i ∈ l,
      ((s1 i).state = SlotState.Active ↔ (s2 i).state = SlotState.Active) ∧
      ((s1 i).state = SlotState.Active → (s1 i).tail = (s2 i).tail)) :
    ∀ acc : Nat × Bool, l.foldl (minStep s1) acc = l.foldl (minStep s2) acc := by
  induction l with
  | nil => intro acc; rfl
  | cons i l ih =>
    intro acc
    rw [List.foldl_cons, List.foldl_cons]
    have hstep : minStep s1 acc i = minStep s2 acc i := by
      unfold minStep
      dsimp only
      by_cases hA : (s1 i).state = SlotState.Active
      · rw [if_pos hA, if_pos ((h i (List.mem_cons_self i l)).1.mp hA),
          (h i (List.mem_cons_self i l)).2 hA]
      · rw [if_neg hA,
          if_neg (fun hA2 => hA ((h i (List.mem_cons_self i l)).1.mpr hA2))]
    rw [hstep]
    exact ih (fun j hj => h j (List.mem_cons_of_mem i hj)) _

theorem SPMCQueue.min_tail_snapshot_le_head {α : Type} (q : SPMCQueue α)
    (hd : Nat) : q.min_tail_snapshot hd ≤ hd := by
  unfold SPMCQueue.min_tail_snapshot
  dsimp only
  split
  · exact foldl_minStep_fst_le q.m_slots (List.range q.maxConsumers) (hd, false)
  · exact le_refl hd

theorem SPMCQueue.min_tail_snapshot_le_tail {α : Type} (q : SPMCQueue α)
    (hd j : Nat) (hj : j ∈ List.range q.maxConsumers)
    (hA : (q.m_slots j).state = SlotState.Active) :
    q.min_tail_snapshot hd ≤ (q.m_slots j).tail := by
  unfold SPMCQueue.min_tail_snapshot
  dsimp only
  have h := foldl_minStep_active q.m_slots (List.range q.maxConsumers) j hj hA
    (hd, false)
  rw [if_pos h.2]
  exact h.1

theorem SPMCQueue.min_tail_snapshot_no_active {α : Type} (q : SPMCQueue α)
    (hd : Nat)
    (h : ∀ j ∈ List.range q.maxConsumers, (q.m_slots j).state ≠ SlotState.Active) :
    q.min_tail_snapshot hd = hd := by
  unfold SPMCQueue.min_tail_snapshot
  rw [foldl_minStep_no_active q.m_slots _ h (hd, false)]
  rfl

theorem SPMCQueue.min_tail_snapshot_congr {α β : Type} (q1 : SPMCQueue α)
    (q2 : SPMCQueue β) (hd : Nat) (hmc : q1.maxConsumers = q2.maxConsumers)
    (h : ∀ i ∈ List.range q1.maxConsumers,
      ((q1.m_slots i).state = SlotState.Active ↔ (q2.m_slots i).state = SlotState.Active) ∧
      ((q1.m_slots i).state = SlotState.Active → (q1.m_slots i).tail = (q2.m_slots i).tail)) :
    q1.min_tail_snapshot hd = q2.min_tail_snapshot hd := by
  unfold SPMCQueue.min_tail_snapshot
  rw [← hmc, foldl_minStep_congr q1.m_slots q2.m_slots _ h (hd, false)]

/-! ## SPMC queue: push behaviour -/

theorem SPMCQueue.push_impl_fail {α : Type} (q : SPMCQueue α) (v : α)
    (j : Nat) (hj : j ∈ List.range q.maxConsumers)
    (hA : (q.m_slots j).state = SlotState.Active)
    (htle : (q.m_slots j).tail ≤ q.m_head) (hh : q.m_head < U64)
    (hfull : q.numSlots ≤ q.m_head - (q.m_slots j).tail) :
    q.push_impl v = (false, q) := by
  unfold SPMCQueue.push_impl
  dsimp only
  have hm1 : q.min_tail_snapshot q.m_head ≤ (q.m_slots j).tail :=
    SPMCQueue.min_tail_snapshot_le_tail q q.m_head j hj hA
  have hm2 : q.min_tail_snapshot q.m_head ≤ q.m_head := le_trans hm1 htle
  rw [u64sub_of_le hm2 hh, if_pos (by omega)]

theorem SPMCQueue.push_impl_succeeds {α : Type} (q : SPMCQueue α) (v : α)
    (hok : u64sub q.m_head (q.min_tail_snapshot q.m_head) < q.numSlots) :
    q.push_impl v = (true, { q with
      m_buffer := updFn q.m_buffer (to_index q.numSlots q.m_head) v
      m_head := (q.m_head + 1) % U64 }) := by
  unfold SPMCQueue.push_impl
  dsimp only
  rw [if_neg (Nat.not_le.mpr hok)]

/-! ## SPMC queue: invariant preservation over operation sequences -/

theorem SPMCQueue.pop_preserves_inv {α : Type} (q : SPMCQueue α) (idx : Nat)
    (hh : q.m_head < U64)
    (ht : ∀ i ∈ List.range q.maxConsumers, (q.m_slots i).tail ≤ q.m_head)
    (hw : ∀ i ∈ List.range q.maxConsumers,
      (q.m_slots i).state = SlotState.Active →
      q.m_head - (q.m_slots i).tail ≤ q.numSlots) :
    (q.pop_impl idx).2.m_head = q.m_head ∧
    (∀ i ∈ List.range (q.pop_impl idx).2.maxConsumers,
      ((q.pop_impl idx).2.m_slots i).tail ≤ (q.pop_impl idx).2.m_head) ∧
    (∀ i ∈ List.range (q.pop_impl idx).2.maxConsumers,
      ((q.pop_impl idx).2.m_slots i).state = SlotState.Active →
      (q.pop_impl idx).2.m_head - ((q.pop_impl idx).2.m_slots i).tail ≤
        (q.pop_impl idx).2.numSlots) ∧
    (q.pop_impl idx).2.numSlots = q.numSlots ∧
    (q.pop_impl idx).2.maxConsumers = q.maxConsumers := by
  unfold SPMCQueue.pop_impl
  dsimp only
  by_cases he : q.m_head ≤ (q.m_slots idx).tail
  · rw [if_pos he]
    exact ⟨rfl, ht, hw, rfl, rfl⟩
  · rw [if_neg he]
    push_neg at he
    dsimp only
    have hmod : ((q.m_slots idx).tail + 1) % U64 = (q.m_slots idx).tail + 1 :=
      Nat.mod_eq_of_lt (by omega)
    refine ⟨rfl, ?_, ?_, rfl, rfl⟩
    · intro i hi
      unfold updFn
      by_cases hij : i = idx
      · rw [if_pos hij]
        dsimp only
        omega
      · rw [if_neg hij]
        exact ht i hi
    · intro i hi hA
      unfold updFn at hA ⊢
      by_cases hij : i = idx
      · rw [if_pos hij] at hA ⊢
        dsimp only at hA ⊢
        subst hij
        have := hw i hi hA
        omega
      · rw [if_neg hij] at hA ⊢
        exact hw i hi hA

theorem SPMCQueue.step_preserves_inv {α : Type} (q : SPMCQueue α) (op : SPMCOp α)
    (hh1 : q.m_head + 1 < U64)
    (ht : ∀ i ∈ List.range q.maxConsumers, (q.m_slots i).tail ≤ q.m_head)
    (hw : ∀ i ∈ List.range q.maxConsumers,
      (q.m_slots i).state = SlotState.Active →
      q.m_head - (q.m_slots i).tail ≤ q.numSlots) :
    (q.step op).m_head ≤ q.m_head + 1 ∧
    (∀ i ∈ List.range (q.step op).maxConsumers,
      ((q.step op).m_slots i).tail ≤ (q.step op).m_head) ∧
    (∀ i ∈ List.range (q.step op).maxConsumers,
      ((q.step op).m_slots i).state = SlotState.Active →
      (q.step op).m_head - ((q.step op).m_slots i).tail ≤ (q.step op).numSlots) ∧
    (q.step op).numSlots = q.numSlots ∧
    (q.step op).maxConsumers = q.maxConsumers := by
  have hh : q.m_head < U64 := by omega
  cases op with
  | push v =>
    unfold SPMCQueue.step
    dsimp only
    by_cases hc : q.numSlots ≤ u64sub q.m_head (q.min_tail_snapshot q.m_head)
    · have hfail : q.push_impl v = (false, q) := by
        unfold SPMCQueue.push_impl
        dsimp only
        rw [if_pos hc]
      rw [hfail]
      exact ⟨Nat.le_succ _, ht, hw, rfl, rfl⟩
    · push_neg at hc
      rw [SPMCQueue.push_impl_succeeds q v hc]
      dsimp only
      have hmin : q.min_tail_snapshot q.m_head ≤ q.m_head :=
        SPMCQueue.min_tail_snapshot_le_head q q.m_head
      rw [u64sub_of_le hmin hh] at hc
      have hmod : (q.m_head + 1) % U64 = q.m_head + 1 := Nat.mod_eq_of_lt hh1
      rw [hmod]
      refine ⟨le_refl _, ?_, ?_, rfl, rfl⟩
      · intro i hi
        have := ht i hi
        omega
      · intro i hi hA
        have h1 := SPMCQueue.min_tail_snapshot_le_tail q q.m_head i hi hA
        have h2 := ht i hi
        omega
  | pop idx =>
    exact ⟨le_trans (le_of_eq (SPMCQueue.pop_preserves_inv q idx hh ht hw).1)
      (Nat.le_succ _), (SPMCQueue.pop_preserves_inv q idx hh ht hw).2⟩
  | tryPop idx =>
    exact ⟨le_trans (le_of_eq (SPMCQueue.pop_preserves_inv q idx hh ht hw).1)
      (Nat.le_succ _), (SPMCQueue.pop_preserves_inv q idx hh ht hw).2⟩
  | makeProducer =>
    unfold SPMCQueue.step SPMCQueue.make_producer
    by_cases hc : q.m_producer_claimed
    · rw [if_pos hc]
      exact ⟨Nat.le_succ _, ht, hw, rfl, rfl⟩
    · rw [if_neg hc]
      exact ⟨Nat.le_succ _, ht, hw, rfl, rfl⟩
  | makeConsumer =>
    unfold SPMCQueue.step SPMCQueue.make_consumer
    dsimp only
    cases hf : (List.range q.maxConsumers).find?
        (fun i => (q.m_slots i).state == SlotState.Free) with
    | none =>
      exact ⟨Nat.le_succ _, ht, hw, rfl, rfl⟩
    | some i0 =>
      dsimp only
      refine ⟨Nat.le_succ _, ?_, ?_, rfl, rfl⟩
      · intro i hi
        unfold updFn
        by_cases hij : i = i0
        · rw [if_pos hij]
        · rw [if_neg hij]
          exact ht i hi
      · intro i hi hA
        unfold updFn at hA ⊢
        by_cases hij : i = i0
        · rw [if_pos hij]
          dsimp only
          omega
        · rw [if_neg hij] at hA ⊢
          exact hw i hi hA
  | dropProducer =>
    exact ⟨Nat.le_succ _, ht, hw, rfl, rfl⟩
  | dropConsumer idx =>
    unfold SPMCQueue.step SPMCQueue.Consumer.dtor
    dsimp only
    rw [if_pos rfl]
    refine ⟨Nat.le_succ _, ?_, ?_, rfl, rfl⟩
    · intro i hi
      simp only [updFn]
      by_cases hij : i = idx
      · rw [if_pos hij]
        exact Nat.zero_le _
      · rw [if_neg hij]
        exact ht i hi
    · intro i hi hA
      simp only [updFn] at hA ⊢
      by_cases hij : i = idx
      · rw [if_pos hij] at hA
        cases hA
      · rw [if_neg hij] at hA ⊢
        exact hw i hi hA

theorem SPMCQueue.run_preserves_inv {α : Type} (ops : List (SPMCOp α)) :
    ∀ (q : SPMCQueue α), q.m_head + ops.length < U64 →
    (∀ i ∈ List.range q.maxConsumers, (q.m_slots i).tail ≤ q.m_head) →
    (∀ i ∈ List.range q.maxConsumers,
      (q.m_slots i).state = SlotState.Active →
      q.m_head - (q.m_slots i).tail ≤ q.numSlots) →
    (SPMCQueue.run q ops).m_head ≤ q.m_head + ops.length ∧
    (∀ i ∈ List.range (SPMCQueue.run q ops).maxConsumers,
      ((SPMCQueue.run q ops).m_slots i).tail ≤ (SPMCQueue.run q ops).m_head) ∧
    (∀ i ∈ List.range (SPMCQueue.run q ops).maxConsumers,
      ((SPMCQueue.run q ops).m_slots i).state = SlotState.Active →
      (SPMCQueue.run q ops).m_head - ((SPMCQueue.run q ops).m_slots i).tail ≤
        (SPMCQueue.run q ops).numSlots) ∧
    (SPMCQueue.run q ops).numSlots = q.numSlots ∧
    (SPMCQueue.run q ops).maxConsumers = q.maxConsumers := by
  induction ops with
  | nil =>
    intro q hlen ht hw
    exact ⟨Nat.le_add_right _ _, ht, hw, rfl, rfl⟩
  | cons op ops ih =>
    intro q hlen ht hw
    rw [List.length_cons] at hlen
    have hs := SPMCQueue.step_preserves_inv q op (by omega) ht hw
    have hrun : SPMCQueue.run q (op :: ops) = SPMCQueue.run (q.step op) ops := rfl
    rw [hrun]
    have hih := ih (q.step op) (by omega) hs.2.1 hs.2.2.1
    refine ⟨?_, hih.2.1, hih.2.2.1, ?_, ?_⟩
    · rw [List.length_cons]
      have h1 := hih.1
      have h2 := hs.1
      omega
    · rw [hih.2.2.2.1, hs.2.2.2.1]
    · rw [hih.2.2.2.2, hs.2.2.2.2]

/-! ## SPMC queue: a consumer slot untouched by an operation sequence -/

theorem SPMCQueue.step_no_touch {α : Type} (q : SPMCQueue α) (op : SPMCOp α)
    (j : Nat) (hnt : SPMCOp.touchesSlot j op = false)
    (hA : (q.m_slots j).state = SlotState.Active) :
    (q.step op).m_slots j = q.m_slots j ∧
    (q.step op).maxConsumers = q.maxConsumers ∧
    (q.step op).numSlots = q.numSlots := by
  cases op with
  | push v =>
    unfold SPMCQueue.step
    dsimp only
    unfold SPMCQueue.push_impl
    dsimp only
    split
    · exact ⟨rfl, rfl, rfl⟩
    · exact ⟨rfl, rfl, rfl⟩
  | pop idx =>
    have hne : ¬(j = idx) := by
      unfold SPMCOp.touchesSlot at hnt
      intro h
      rw [h] at hnt
      simp at hnt
    unfold SPMCQueue.step
    dsimp only
    unfold SPMCQueue.pop_impl
    dsimp only
    split
    · exact ⟨rfl, rfl, rfl⟩
    · dsimp only
      unfold updFn
      rw [if_neg hne]
      exact ⟨rfl, rfl, rfl⟩
  | tryPop idx =>
    have hne : ¬(j = idx) := by
      unfold SPMCOp.touchesSlot at hnt
      intro h
      rw [h] at hnt
      simp at hnt
    unfold SPMCQueue.step
    dsimp only
    unfold SPMCQueue.pop_impl
    dsimp only
    split
    · exact ⟨rfl, rfl, rfl⟩
    · dsimp only
      unfold updFn
      rw [if_neg hne]
      exact ⟨rfl, rfl, rfl⟩
  | makeProducer =>
    unfold SPMCQueue.step
    dsimp only
    unfold SPMCQueue.make_producer
    split
    · exact ⟨rfl, rfl, rfl⟩
    · exact ⟨rfl, rfl, rfl⟩
  | makeConsumer =>
    unfold SPMCQueue.step
    dsimp only
    unfold SPMCQueue.make_consumer
    dsimp only
    cases hf : (List.range q.maxConsumers).find?
        (fun i => (q.m_slots i).state == SlotState.Free) with
    | none => exact ⟨rfl, rfl, rfl⟩
    | some i0 =>
      dsimp only
      have hp := List.find?_some hf
      have hfree : (q.m_slots i0).state = SlotState.Free := by simpa using hp
      have hne : ¬(j = i0) := fun h => by
        rw [h, hfree] at hA
        cases hA
      unfold updFn
      rw [if_neg hne]
      exact ⟨rfl, rfl, rfl⟩
  | dropProducer => exact ⟨rfl, rfl, rfl⟩
  | dropConsumer idx =>
    have hne : ¬(j = idx) := by
      unfold SPMCOp.touchesSlot at hnt
      intro h
      rw [h] at hnt
      simp at hnt
    unfold SPMCQueue.step
    dsimp only
    unfold SPMCQueue.Consumer.dtor
    dsimp only
    rw [if_pos rfl]
    dsimp only
    unfold updFn
    rw [if_neg hne]
    exact ⟨rfl, rfl, rfl⟩

theorem SPMCQueue.run_no_touch {α : Type} (ops : List (SPMCOp α)) :
    ∀ (q : SPMCQueue α) (j : Nat),
    (∀ op ∈ ops, SPMCOp.touchesSlot j op = false) →
    (q.m_slots j).state = SlotState.Active →
    (SPMCQueue.run q ops).m_slots j = q.m_slots j ∧
    (SPMCQueue.run q ops).maxConsumers = q.maxConsumers ∧
    (SPMCQueue.run q ops).numSlots = q.numSlots := by
  induction ops with
  | nil => intro q j _ _; exact ⟨rfl, rfl, rfl⟩
  | cons op ops ih =>
    intro q j hnt hA
    have hs := SPMCQueue.step_no_touch q op j
      (hnt op (List.mem_cons_self op ops)) hA
    have hrun : SPMCQueue.run q (op :: ops) = SPMCQueue.run (q.step op) ops := rfl
    rw [hrun]
    have hih := ih (q.step op) j
      (fun o ho => hnt o (List.mem_cons_of_mem op ho)) (by rw [hs.1]; exact hA)
    exact ⟨hih.1.trans hs.1, hih.2.1.trans hs.2.1, hih.2.2.trans hs.2.2⟩

/-! ## SPMC queue: attaching consumers -/

theorem find?_range_first (p : Nat → Bool) (idx n : Nat)
    (hprev : ∀ i, i < idx → p i = false) (hp : p idx = true) :
    idx < n → (List.range n).find? p = some idx := by
  induction n with
  | zero => intro h; omega
  | succ n ih =>
    intro hlt
    rw [List.range_succ, List.find?_append]
    by_cases hc : idx < n
    · rw [ih hc]
      rfl
    · have hin : idx = n := by omega
      subst hin
      have hnone : (List.range idx).find? p = none := by
        rw [List.find?_eq_none]
        intro x hx
        rw [List.mem_range] at hx
        simp [hprev x hx]
      rw [hnone]
      simp [List.find?_cons, hp]

theorem SPMCQueue.make_consumer_spec {α : Type} (q : SPMCQueue α) (j : Nat)
    (hj : j < q.maxConsumers)
    (hfree : (q.m_slots j).state = SlotState.Free)
    (hprev : ∀ i, i < j → (q.m_slots i).state ≠ SlotState.Free) :
    q.make_consumer = (some { m_queue := true, m_slot_idx := j },
      { q with m_slots :=
          updFn q.m_slots j ({ state := SlotState.Active, tail := q.m_head }) }) := by
  unfold SPMCQueue.make_consumer
  dsimp only
  rw [find?_range_first _ j q.maxConsumers
    (fun i hi => beq_eq_false_iff_ne.mpr (hprev i hi))
    (beq_iff_eq.mpr hfree) hj]

/-! ## SPMC queue: pushing into a queue with no active consumer -/

theorem SPMCQueue.step_push_no_active {α : Type} (q : SPMCQueue α) (v : α)
    (h1 : 0 < q.numSlots) (h2 : q.m_head < U64)
    (h3 : ∀ i ∈ List.range q.maxConsumers,
      (q.m_slots i).state ≠ SlotState.Active) :
    (q.step (SPMCOp.push v)).m_head = (q.m_head + 1) % U64 ∧
    (q.step (SPMCOp.push v)).m_slots = q.m_slots ∧
    (q.step (SPMCOp.push v)).numSlots = q.numSlots ∧
    (q.step (SPMCOp.push v)).maxConsumers = q.maxConsumers := by
  have hmin := SPMCQueue.min_tail_snapshot_no_active q q.m_head h3
  have hok : u64sub q.m_head (q.min_tail_snapshot q.m_head) < q.numSlots := by
    rw [hmin, u64sub_of_le (le_refl _) h2]
    omega
  unfold SPMCQueue.step
  dsimp only
  rw [SPMCQueue.push_impl_succeeds q v hok]
  exact ⟨rfl, rfl, rfl, rfl⟩

theorem SPMCQueue.run_replicate_push {α : Type} (v : α) (n : Nat) :
    ∀ (q : SPMCQueue α), 0 < q.numSlots → q.m_head < U64 →
    (∀ i ∈ List.range q.maxConsumers,
      (q.m_slots i).state ≠ SlotState.Active) →
    (SPMCQueue.run q (List.replicate n (SPMCOp.push v))).m_head =
      (q.m_head + n) % U64 ∧
    (SPMCQueue.run q (List.replicate n (SPMCOp.push v))).m_slots = q.m_slots ∧
    (SPMCQueue.run q (List.replicate n (SPMCOp.push v))).numSlots = q.numSlots ∧
    (SPMCQueue.run q (List.replicate n (SPMCOp.push v))).maxConsumers =
      q.maxConsumers := by
  induction n with
  | zero =>
    intro q h1 h2 h3
    rw [List.replicate_zero]
    refine ⟨?_, rfl, rfl, rfl⟩
    show q.m_head = (q.m_head + 0) % U64
    rw [Nat.add_zero, Nat.mod_eq_of_lt h2]
  | succ n ih =>
    intro q h1 h2 h3
    rw [List.replicate_succ]
    have hs := SPMCQueue.step_push_no_active q v h1 h2 h3
    have hrun : SPMCQueue.run q (SPMCOp.push v :: List.replicate n (SPMCOp.push v))
        = SPMCQueue.run (q.step (SPMCOp.push v)) (List.replicate n (SPMCOp.push v)) := rfl
    rw [hrun]
    have hih := ih (q.step (SPMCOp.push v))
      (by rw [hs.2.2.1]; exact h1)
      (by rw [hs.1]; exact Nat.mod_lt _ U64_pos)
      (by rw [hs.2.1, hs.2.2.2]; exact h3)
    refine ⟨?_, hih.2.1.trans hs.2.1, hih.2.2.1.trans hs.2.2.1,
      hih.2.2.2.trans hs.2.2.2⟩
    rw [hih.1, hs.1, Nat.mod_add_mod]
    congr 1
    omega

/-! ## Further helper lemmas for the claim theorems -/

theorem SPMCQueue.run_append {α : Type} (q : SPMCQueue α)
    (l1 l2 : List (SPMCOp α)) :
    SPMCQueue.run q (l1 ++ l2) = SPMCQueue.run (SPMCQueue.run q l1) l2 :=
  List.foldl_append _ _ _ _

theorem SPMCQueue.run_cons {α : Type} (q : SPMCQueue α) (op : SPMCOp α)
    (ops : List (SPMCOp α)) :
    SPMCQueue.run q (op :: ops) = SPMCQueue.run (q.step op) ops := rfl

theorem SPMCQueue.run_nil {α : Type} (q : SPMCQueue α) :
    SPMCQueue.run q [] = q := rfl

theorem SPMCQueue.min_tail_snapshot_one {α : Type} (q : SPMCQueue α)
    (hd : Nat) (hmc : q.maxConsumers = 1)
    (hA : (q.m_slots 0).state = SlotState.Active) :
    q.min_tail_snapshot hd =
      if (q.m_slots 0).tail < hd then (q.m_slots 0).tail else hd := by
  unfold SPMCQueue.min_tail_snapshot
  have hr1 : List.range 1 = [0] := rfl
  rw [hmc, hr1]
  simp only [List.foldl_cons, List.foldl_nil]
  unfold minStep
  dsimp only
  rw [if_pos hA]
  rfl

theorem SPMCQueue.step_push_single {α : Type} (q : SPMCQueue α) (v : α)
    (hmc : q.maxConsumers = 1)
    (hA : (q.m_slots 0).state = SlotState.Active)
    (hns : q.numSlots = 1)
    (hok : u64sub q.m_head
      (if (q.m_slots 0).tail < q.m_head then (q.m_slots 0).tail else q.m_head)
      < 1) :
    (q.step (SPMCOp.push v)).m_head = (q.m_head + 1) % U64 ∧
    (q.step (SPMCOp.push v)).m_slots = q.m_slots ∧
    (q.step (SPMCOp.push v)).numSlots = q.numSlots ∧
    (q.step (SPMCOp.push v)).maxConsumers = q.maxConsumers := by
  have hmin := SPMCQueue.min_tail_snapshot_one q q.m_head hmc hA
  have hok2 : u64sub q.m_head (q.min_tail_snapshot q.m_head) < q.numSlots := by
    rw [hmin, hns]
    exact hok
  unfold SPMCQueue.step
  dsimp only
  rw [SPMCQueue.push_impl_succeeds q v hok2]
  exact ⟨rfl, rfl, rfl, rfl⟩

theorem SPMCQueue.step_make_consumer_first {α : Type} (q : SPMCQueue α)
    (hmc0 : 0 < q.maxConsumers)
    (hfree : (q.m_slots 0).state = SlotState.Free) :
    (q.step SPMCOp.makeConsumer).m_head = q.m_head ∧
    (q.step SPMCOp.makeConsumer).m_slots 0 =
      { state := SlotState.Active, tail := q.m_head } ∧
    (q.step SPMCOp.makeConsumer).numSlots = q.numSlots ∧
    (q.step SPMCOp.makeConsumer).maxConsumers = q.maxConsumers := by
  have hspec := SPMCQueue.make_consumer_spec q 0 hmc0 hfree
    (fun i hi => absurd hi (Nat.not_lt_zero i))
  unfold SPMCQueue.step
  dsimp only
  rw [hspec]
  refine ⟨rfl, ?_, rfl, rfl⟩
  simp [updFn]

/-! ## Claim theorems -/

/-- C4: SPSC fill/drain scenario: on an SPSC queue of capacity 4, pushing
1, 2, 3, 4 succeeds each time and a fifth push fails ("full": at that point
`head - tail` has reached the capacity); a subsequent pop returns 1, and
after that pop pushing 5 succeeds. -/
theorem spsc_fill_drain_scenario :
    ((SPSCQueue.init (0 : Nat) 2).pushAll [1, 2, 3, 4, 5]).1 =
      [true, true, true, true, false] ∧
    ((SPSCQueue.init (0 : Nat) 2).pushAll [1, 2, 3, 4]).2.numSlots ≤
      u64sub ((SPSCQueue.init (0 : Nat) 2).pushAll [1, 2, 3, 4]).2.m_head
        ((SPSCQueue.init (0 : Nat) 2).pushAll [1, 2, 3, 4]).2.m_tail ∧
    (((SPSCQueue.init (0 : Nat) 2).pushAll [1, 2, 3, 4, 5]).2.pop_impl).1 =
      some 1 ∧
    ((((SPSCQueue.init (0 : Nat) 2).pushAll
        [1, 2, 3, 4, 5]).2.pop_impl).2.push_impl 5).1 = true :=
  ⟨by decide, by decide, by decide, by decide⟩

/-- C6: count_snapshot range: in any state of either queue (in particular in
every reachable one), every `count_snapshot` variant returns a value that is
at most the configured capacity — the clamp prevents reporting a huge
underflowed difference. -/
theorem count_snapshot_range (α : Type) :
    (∀ q : SPSCQueue α, q.count_snapshot_impl ≤ q.numSlots) ∧
    (∀ (q : SPMCQueue α) (idx : Nat),
      q.count_snapshot_impl_idx idx ≤ q.numSlots) ∧
    (∀ q : SPMCQueue α, q.count_snapshot_impl ≤ q.numSlots) := by
  refine ⟨fun q => ?_, fun q idx => ?_, fun q => ?_⟩
  · unfold SPSCQueue.count_snapshot_impl
    dsimp only
    split <;> omega
  · unfold SPMCQueue.count_snapshot_impl_idx
    dsimp only
    split <;> omega
  · unfold SPMCQueue.count_snapshot_impl
    dsimp only
    split <;> omega

/-- C7: producer-claim exclusivity: on a queue whose producer role is free,
`make_producer` returns a handle and marks the role claimed; a second
`make_producer` fails without changing the state; after the handle's
destructor runs, the role is free again and `make_producer` succeeds. -/
theorem producer_claim_exclusivity {α : Type} (q : SPSCQueue α)
    (hfree : q.m_producer_claimed = false) :
    (q.make_producer).1 = some { m_queue := true } ∧
    ((q.make_producer).2).m_producer_claimed = true ∧
    ((q.make_producer).2).make_producer = (none, (q.make_producer).2) ∧
    (SPSCQueue.Producer.dtor { m_queue := true }
      (q.make_producer).2).m_producer_claimed = false ∧
    ((SPSCQueue.Producer.dtor { m_queue := true }
      (q.make_producer).2).make_producer).1 = some { m_queue := true } := by
  unfold SPSCQueue.make_producer SPSCQueue.Producer.dtor
  rw [hfree]
  simp

/-- Witness for C7 at a concrete input. -/
theorem producer_claim_exclusivity_witness :
    ((SPSCQueue.init (0 : Nat) 2).make_producer).1 = some { m_queue := true } ∧
    (((SPSCQueue.init (0 : Nat) 2).make_producer).2).m_producer_claimed = true ∧
    (((SPSCQueue.init (0 : Nat) 2).make_producer).2).make_producer =
      (none, ((SPSCQueue.init (0 : Nat) 2).make_producer).2) ∧
    (SPSCQueue.Producer.dtor { m_queue := true }
      ((SPSCQueue.init (0 : Nat) 2).make_producer).2).m_producer_claimed =
      false ∧
    ((SPSCQueue.Producer.dtor { m_queue := true }
      ((SPSCQueue.init (0 : Nat) 2).make_producer).2).make_producer).1 =
      some { m_queue := true } :=
  producer_claim_exclusivity (SPSCQueue.init (0 : Nat) 2) rfl

/-- C9: try_pop is equivalent to pop: in both queues, `try_pop` returns
`true` and the value `pop` would return (with the identical successor state)
exactly when `pop` succeeds, and returns `false`, the caller's `out`
unchanged, and the identical (unchanged) state exactly when `pop` reports
"empty". -/
theorem try_pop_equiv_pop (α : Type) :
    (∀ (q : SPSCQueue α) (out : α),
      q.try_pop_impl out =
        match (q.pop_impl).1 with
        | some v => (true, v, (q.pop_impl).2)
        | none => (false, out, (q.pop_impl).2)) ∧
    (∀ (q : SPMCQueue α) (out : α) (idx : Nat),
      q.try_pop_impl out idx =
        match (q.pop_impl idx).1 with
        | some v => (true, v, (q.pop_impl idx).2)
        | none => (false, out, (q.pop_impl idx).2)) := by
  constructor
  · intro q out
    unfold SPSCQueue.try_pop_impl SPSCQueue.pop_impl
    dsimp only
    by_cases he : q.m_head ≤ q.m_tail
    · rw [if_pos he, if_pos he]
    · rw [if_neg he, if_neg he]
  · intro q out idx
    unfold SPMCQueue.try_pop_impl SPMCQueue.pop_impl
    dsimp only
    by_cases he : q.m_head ≤ (q.m_slots idx).tail
    · rw [if_pos he, if_pos he]
    · rw [if_neg he, if_neg he]

/-- C10: moving a handle transfers ownership without releasing it: after a
move construction the new handle equals the old one and the moved-from
handle's destructor leaves the queue untouched; after a move assignment the
moved-from handle's destructor likewise leaves the queue untouched (no
double release of the claim flag or the consumer slot). -/
theorem move_transfers_ownership (α : Type) :
    (∀ (p : SPSCQueue.Producer) (q : SPSCQueue α),
      (SPSCQueue.Producer.moveCtor p).1 = p ∧
      SPSCQueue.Producer.dtor (SPSCQueue.Producer.moveCtor p).2 q = q) ∧
    (∀ (t p : SPSCQueue.Producer) (q q2 : SPSCQueue α),
      (SPSCQueue.Producer.moveAssign t p q).1 = { m_queue := p.m_queue } ∧
      SPSCQueue.Producer.dtor (SPSCQueue.Producer.moveAssign t p q).2.1 q2 = q2) ∧
    (∀ (c : SPSCQueue.Consumer) (q : SPSCQueue α),
      (SPSCQueue.Consumer.moveCtor c).1 = c ∧
      SPSCQueue.Consumer.dtor (SPSCQueue.Consumer.moveCtor c).2 q = q) ∧
    (∀ (t c : SPSCQueue.Consumer) (q q2 : SPSCQueue α),
      SPSCQueue.Consumer.dtor (SPSCQueue.Consumer.moveAssign t c q).2.1 q2 = q2) ∧
    (∀ (c : SPMCQueue.Consumer) (q : SPMCQueue α),
      (SPMCQueue.Consumer.moveCtor c).1 = c ∧
      SPMCQueue.Consumer.dtor (SPMCQueue.Consumer.moveCtor c).2 q = q) ∧
    (∀ (t c : SPMCQueue.Consumer) (q q2 : SPMCQueue α),
      SPMCQueue.Consumer.dtor (SPMCQueue.Consumer.moveAssign t c q).2.1 q2 = q2) :=
  ⟨fun _ _ => ⟨rfl, rfl⟩, fun _ _ _ _ => ⟨rfl, rfl⟩, fun _ _ => ⟨rfl, rfl⟩,
    fun _ _ _ _ => rfl, fun _ _ => ⟨rfl, rfl⟩, fun _ _ _ _ => rfl⟩

/-- C1: SPSC FIFO order: pushing any sequence of N values into an SPSC queue
whose consumer has caught up (`tail = head`) succeeds for every value
whenever N fits the capacity, and popping N times then returns exactly those
N values in the order they were pushed. -/
theorem spsc_fifo_order {α : Type} (q : SPSCQueue α) (k : Nat) (vs : List α)
    (hns : q.numSlots = 2 ^ k) (hempty : q.m_tail = q.m_head)
    (hlen : vs.length ≤ q.numSlots) (hh : q.m_head + vs.length < U64) :
    (q.pushAll vs).1 = List.replicate vs.length true ∧
    ((q.pushAll vs).2.popN vs.length).1 = vs.map some := by
  have hempty2 : q.contents = [] :=
    SPSCQueue.contents_empty q (le_of_eq hempty.symm)
  have hp := SPSCQueue.pushAll_spec k vs q hns (le_of_eq hempty)
    (by omega) hh
  refine ⟨hp.1, ?_⟩
  have hcq : (q.pushAll vs).2.contents = vs := by
    rw [hp.2.1, hempty2]
    simp
  exact SPSCQueue.popN_spec vs (q.pushAll vs).2 hcq
    (by rw [hp.2.2.1, hp.2.2.2.1]; omega)
    (by rw [hp.2.2.1]; omega)

/-- Witness for C1 at a concrete input. -/
theorem spsc_fifo_order_witness :
    ((SPSCQueue.init (0 : Nat) 2).pushAll [10, 20, 30]).1 =
      List.replicate ([10, 20, 30] : List Nat).length true ∧
    (((SPSCQueue.init (0 : Nat) 2).pushAll [10, 20, 30]).2.popN
      ([10, 20, 30] : List Nat).length).1 = ([10, 20, 30] : List Nat).map some :=
  spsc_fifo_order (SPSCQueue.init (0 : Nat) 2) 2 [10, 20, 30]
    rfl rfl (by decide) (by decide)

/-- C3: SPMC late-join: a consumer attached by `make_consumer` takes the
first free slot, its cursor is set to the producer cursor current at attach
time, an immediate pop reports "empty" (none of the earlier items is
delivered), and if a value is then pushed, that consumer's first successful
pop returns exactly that first post-attach value. -/
theorem spmc_late_join {α : Type} (q : SPMCQueue α) (j : Nat) (v : α)
    (hj : j ∈ List.range q.maxConsumers)
    (hfree : (q.m_slots j).state = SlotState.Free)
    (hprev : ∀ i ∈ List.range j, (q.m_slots i).state ≠ SlotState.Free)
    (hh : q.m_head + 1 < U64) :
    (q.make_consumer).1 = some { m_queue := true, m_slot_idx := j } ∧
    (((q.make_consumer).2).m_slots j).tail = q.m_head ∧
    ((q.make_consumer).2).pop_impl j = (none, (q.make_consumer).2) ∧
    ((((q.make_consumer).2).push_impl v).1 = true →
      ((((q.make_consumer).2).push_impl v).2.pop_impl j).1 = some v) := by
  have hspec := SPMCQueue.make_consumer_spec q j (List.mem_range.mp hj) hfree
    (fun i hi => hprev i (List.mem_range.mpr hi))
  rw [hspec]
  refine ⟨rfl, by simp [updFn], ?_, ?_⟩
  · unfold SPMCQueue.pop_impl
    dsimp only
    rw [if_pos ?cond]
    case cond =>
      simp [updFn]
  · intro hps
    unfold SPMCQueue.push_impl at hps ⊢
    dsimp only at hps ⊢
    split at hps
    · cases hps
    · rename_i hcond
      rw [if_neg hcond]
      unfold SPMCQueue.pop_impl
      rw [if_neg ?cond2]
      case cond2 =>
        dsimp only
        have hupd : updFn q.m_slots j
            ({ state := SlotState.Active, tail := q.m_head }) j =
            { state := SlotState.Active, tail := q.m_head } := by
          unfold updFn
          rw [if_pos rfl]
        rw [hupd, Nat.mod_eq_of_lt hh]
        dsimp only
        omega
      simp [updFn]

/-- Witness for C3 at a concrete input. -/
theorem spmc_late_join_witness :
    ((SPMCQueue.init (0 : Nat) 0 1).make_consumer).1 =
      some { m_queue := true, m_slot_idx := 0 } ∧
    ((((SPMCQueue.init (0 : Nat) 0 1).make_consumer).2).m_slots 0).tail =
      (SPMCQueue.init (0 : Nat) 0 1).m_head ∧
    (((SPMCQueue.init (0 : Nat) 0 1).make_consumer).2).pop_impl 0 =
      (none, ((SPMCQueue.init (0 : Nat) 0 1).make_consumer).2) ∧
    (((((SPMCQueue.init (0 : Nat) 0 1).make_consumer).2).push_impl 42).1 = true →
      (((((SPMCQueue.init (0 : Nat) 0 1).make_consumer).2).push_impl
        42).2.pop_impl 0).1 = some 42) :=
  spmc_late_join (SPMCQueue.init (0 : Nat) 0 1) 0 42
    (by decide) (by decide) (by decide) (by decide)

/-- C8: SPMC slot release and reuse: destroying a live consumer handle
leaves its slot `{Free, 0}`; a `Free` slot is excluded from the
`min_tail_snapshot` backpressure computation (its stored tail is
irrelevant); a subsequent `make_consumer` reuses the freed slot index and
starts that slot at the then-current producer cursor, not at zero. -/
theorem spmc_slot_release_reuse {α : Type} (q : SPMCQueue α)
    (c : SPMCQueue.Consumer) (hcq : c.m_queue = true)
    (hj : c.m_slot_idx ∈ List.range q.maxConsumers)
    (hprev : ∀ i ∈ List.range c.m_slot_idx,
      (q.m_slots i).state ≠ SlotState.Free) :
    ((c.dtor q).m_slots c.m_slot_idx).state = SlotState.Free ∧
    ((c.dtor q).m_slots c.m_slot_idx).tail = 0 ∧
    (∀ (t hd : Nat),
      SPMCQueue.min_tail_snapshot
        { c.dtor q with m_slots :=
                          updFn (c.dtor q).m_slots c.m_slot_idx
                            ({ state := SlotState.Free, tail := t }) } hd =
      SPMCQueue.min_tail_snapshot (c.dtor q) hd) ∧
    ((c.dtor q).make_consumer).1 =
      some { m_queue := true, m_slot_idx := c.m_slot_idx } ∧
    (((c.dtor q).make_consumer).2.m_slots c.m_slot_idx) =
      { state := SlotState.Active, tail := (c.dtor q).m_head } := by
  have hd : c.dtor q = { q with
      m_slots := updFn q.m_slots c.m_slot_idx
        ({ state := SlotState.Free, tail := 0 }) } := by
    unfold SPMCQueue.Consumer.dtor
    rw [hcq]
    rfl
  have hslot : (c.dtor q).m_slots c.m_slot_idx =
      { state := SlotState.Free, tail := 0 } := by
    rw [hd]
    simp [updFn]
  have hother : ∀ i, i ≠ c.m_slot_idx → (c.dtor q).m_slots i = q.m_slots i := by
    intro i hi
    rw [hd]
    simp [updFn, hi]
  refine ⟨by rw [hslot], by rw [hslot], ?_, ?_, ?_⟩
  · intro t hd2
    refine SPMCQueue.min_tail_snapshot_congr _ _ hd2 rfl ?_
    intro i hi
    dsimp only
    by_cases hic : i = c.m_slot_idx
    · subst hic
      rw [hslot]
      simp [updFn]
    · simp [updFn, hic]
  · rw [SPMCQueue.make_consumer_spec (c.dtor q) c.m_slot_idx ?inrange
      (by rw [hslot]) ?noprev]
    case inrange =>
      have := List.mem_range.mp hj
      rw [hd]
      exact this
    case noprev =>
      intro i hi
      rw [hother i (by omega)]
      exact hprev i (List.mem_range.mpr hi)
  · rw [SPMCQueue.make_consumer_spec (c.dtor q) c.m_slot_idx ?inrange2
      (by rw [hslot]) ?noprev2]
    case inrange2 =>
      have := List.mem_range.mp hj
      rw [hd]
      exact this
    case noprev2 =>
      intro i hi
      rw [hother i (by omega)]
      exact hprev i (List.mem_range.mpr hi)
    simp [updFn]

/-- Witness for C8 at a concrete input. -/
theorem spmc_slot_release_reuse_witness :
    ((SPMCQueue.Consumer.dtor { m_queue := true, m_slot_idx := 0 }
        ((SPMCQueue.init (0 : Nat) 0 1).make_consumer).2).m_slots 0).state =
      SlotState.Free ∧
    ((SPMCQueue.Consumer.dtor { m_queue := true, m_slot_idx := 0 }
        ((SPMCQueue.init (0 : Nat) 0 1).make_consumer).2).m_slots 0).tail = 0 ∧
    SPMCQueue.min_tail_snapshot
      { SPMCQueue.Consumer.dtor { m_queue := true, m_slot_idx := 0 }
          ((SPMCQueue.init (0 : Nat) 0 1).make_consumer).2 with
        m_slots := updFn (SPMCQueue.Consumer.dtor
                       { m_queue := true, m_slot_idx := 0 }
                       ((SPMCQueue.init (0 : Nat) 0 1).make_consumer).2).m_slots 0
                     ({ state := SlotState.Free, tail := 7 }) } 5 =
      SPMCQueue.min_tail_snapshot (SPMCQueue.Consumer.dtor
        { m_queue := true, m_slot_idx := 0 }
        ((SPMCQueue.init (0 : Nat) 0 1).make_consumer).2) 5 ∧
    ((SPMCQueue.Consumer.dtor { m_queue := true, m_slot_idx := 0 }
        ((SPMCQueue.init (0 : Nat) 0 1).make_consumer).2).make_consumer).1 =
      some { m_queue := true, m_slot_idx := 0 } ∧
    (((SPMCQueue.Consumer.dtor { m_queue := true, m_slot_idx := 0 }
        ((SPMCQueue.init (0 : Nat) 0 1).make_consumer).2).make_consumer).2.m_slots 0) =
      { state := SlotState.Active,
        tail := (SPMCQueue.Consumer.dtor { m_queue := true, m_slot_idx := 0 }
          ((SPMCQueue.init (0 : Nat) 0 1).make_consumer).2).m_head } := by
  have h := spmc_slot_release_reuse
    ((SPMCQueue.init (0 : Nat) 0 1).make_consumer).2
    { m_queue := true, m_slot_idx := 0 } (by decide) (by decide) (by decide)
  exact ⟨h.1, h.2.1, h.2.2.1 7 5, h.2.2.2.1, h.2.2.2.2⟩

/-- C2: SPMC backpressure: fix a consumer slot `j` that is `Active` with its
cursor at the attach point (`tail j = head`).  Run any sequence of queue
operations in which the consumer owning `j` does nothing, and suppose the
producer cursor advanced by exactly `capacity` (i.e. `capacity` pushes
succeeded — "pushing capacity items").  Then the next push — the
`(capacity+1)`-th — fails and leaves the state unchanged, regardless of how
far any other consumers advanced.  Moreover push fails exactly when
`head - min_tail_snapshot(head) ≥ capacity`. -/
theorem spmc_backpressure {α : Type} (q0 : SPMCQueue α)
    (ops : List (SPMCOp α)) (j : Nat) (v : α)
    (hops : ∀ op ∈ ops, SPMCOp.touchesSlot j op = false)
    (hj : j ∈ List.range q0.maxConsumers)
    (hA : (q0.m_slots j).state = SlotState.Active)
    (hattach : (q0.m_slots j).tail = q0.m_head)
    (ht : ∀ i ∈ List.range q0.maxConsumers, (q0.m_slots i).tail ≤ q0.m_head)
    (hw : ∀ i ∈ List.range q0.maxConsumers,
      (q0.m_slots i).state = SlotState.Active →
      q0.m_head - (q0.m_slots i).tail ≤ q0.numSlots)
    (hlen : q0.m_head + ops.length < U64)
    (hC : (SPMCQueue.run q0 ops).m_head = q0.m_head + q0.numSlots) :
    (SPMCQueue.run q0 ops).push_impl v = (false, SPMCQueue.run q0 ops) ∧
    (∀ (p : SPMCQueue α) (w : α),
      (p.push_impl w).1 = false ↔
      p.numSlots ≤ u64sub p.m_head (p.min_tail_snapshot p.m_head)) := by
  constructor
  · have hnt := SPMCQueue.run_no_touch ops q0 j hops hA
    have hinv := SPMCQueue.run_preserves_inv ops q0 hlen ht hw
    have hslot : (SPMCQueue.run q0 ops).m_slots j = q0.m_slots j := hnt.1
    have hAf : ((SPMCQueue.run q0 ops).m_slots j).state = SlotState.Active := by
      rw [hslot]
      exact hA
    have htailf : ((SPMCQueue.run q0 ops).m_slots j).tail = q0.m_head := by
      rw [hslot]
      exact hattach
    have hjf : j ∈ List.range (SPMCQueue.run q0 ops).maxConsumers := by
      rw [hnt.2.1]
      exact hj
    have hhf : (SPMCQueue.run q0 ops).m_head < U64 := by
      have h1 := hinv.1
      omega
    have htle : ((SPMCQueue.run q0 ops).m_slots j).tail ≤
        (SPMCQueue.run q0 ops).m_head := by
      rw [htailf, hC]
      omega
    refine SPMCQueue.push_impl_fail (SPMCQueue.run q0 ops) v j hjf hAf htle
      hhf ?_
    rw [htailf, hC, hinv.2.2.2.1]
    omega
  · intro p w
    unfold SPMCQueue.push_impl
    dsimp only
    split
    next h => simp [h]
    next h => simp [h]

/-- Witness for C2 at a concrete input: capacity 1, one consumer attached at
head 0 and never popping, one successful push; the second push fails. -/
theorem spmc_backpressure_witness :
    (SPMCQueue.run ((SPMCQueue.init (0 : Nat) 0 1).make_consumer).2
        [SPMCOp.push 7]).push_impl 9 =
      (false, SPMCQueue.run ((SPMCQueue.init (0 : Nat) 0 1).make_consumer).2
        [SPMCOp.push 7]) :=
  (spmc_backpressure ((SPMCQueue.init (0 : Nat) 0 1).make_consumer).2
    [SPMCOp.push 7] 0 9 (by decide) (by decide) (by decide) (by decide)
    (by decide) (by decide) (by decide) (by decide)).1

/-- C5 (amended): capacity invariant.  (a) SPSC: in every state reachable by
any operation sequence from a fresh queue, the 64-bit distance `head - tail`
never exceeds the capacity, unconditionally.  (b) SPMC: the distance
`head - tail_j` of every `Active` slot `j` stays within the capacity in
every state reachable by fewer than `2^64` operations (before the producer
cursor can wrap).  (c)/(d) When the distance has reached the capacity the
push reports "full" and does not advance (SPSC always; SPMC in the
non-wrapped regime). -/
theorem capacity_invariant_amended {α : Type} (d : α) (k kc mc : Nat) :
    (∀ ops : List (SPSCOp α),
      u64sub (SPSCQueue.run (SPSCQueue.init d k) ops).m_head
          (SPSCQueue.run (SPSCQueue.init d k) ops).m_tail ≤
        (SPSCQueue.run (SPSCQueue.init d k) ops).numSlots) ∧
    (∀ ops : List (SPMCOp α), ops.length < U64 →
      ∀ j ∈ List.range
        (SPMCQueue.run (SPMCQueue.init d kc mc) ops).maxConsumers,
      ((SPMCQueue.run (SPMCQueue.init d kc mc) ops).m_slots j).state =
        SlotState.Active →
      u64sub (SPMCQueue.run (SPMCQueue.init d kc mc) ops).m_head
          (((SPMCQueue.run (SPMCQueue.init d kc mc) ops).m_slots j).tail) ≤
        (SPMCQueue.run (SPMCQueue.init d kc mc) ops).numSlots) ∧
    (∀ (q : SPSCQueue α) (v : α), q.numSlots ≤ u64sub q.m_head q.m_tail →
      q.push_impl v = (false, q)) ∧
    (∀ (q : SPMCQueue α) (v : α) (j : Nat), j ∈ List.range q.maxConsumers →
      (q.m_slots j).state = SlotState.Active →
      (q.m_slots j).tail ≤ q.m_head → q.m_head < U64 →
      q.numSlots ≤ q.m_head - (q.m_slots j).tail →
      q.push_impl v = (false, q)) := by
  refine ⟨?_, ?_, ?_, ?_⟩
  · intro ops
    refine (SPSCQueue.run_inv ops (SPSCQueue.init d k) ?_ ?_ ?_).1
    · show u64sub 0 0 ≤ 2 ^ k
      rw [show u64sub 0 0 = 0 from by decide]
      exact Nat.zero_le _
    · exact U64_pos
    · exact U64_pos
  · intro ops hlen j hj hA
    have hinv := SPMCQueue.run_preserves_inv ops (SPMCQueue.init d kc mc)
      (by show 0 + ops.length < U64; omega)
      (fun i _ => Nat.le_refl 0)
      (fun i _ h => SlotState.noConfusion h)
    have hhf : (SPMCQueue.run (SPMCQueue.init d kc mc) ops).m_head < U64 := by
      have h1 := hinv.1
      have h0 : (SPMCQueue.init d kc mc).m_head = 0 := rfl
      omega
    rw [u64sub_of_le (hinv.2.1 j hj) hhf]
    exact hinv.2.2.1 j hj hA
  · intro q v h
    exact SPSCQueue.push_impl_full q v h
  · intro q v j hj hA htle hh hfull
    exact SPMCQueue.push_impl_fail q v j hj hA htle hh hfull

/-- Witness for C5 (amended) at concrete inputs. -/
theorem capacity_invariant_amended_witness :
    u64sub (SPSCQueue.run (SPSCQueue.init (0 : Nat) 2)
          [SPSCOp.push 3]).m_head
        (SPSCQueue.run (SPSCQueue.init (0 : Nat) 2) [SPSCOp.push 3]).m_tail ≤
      (SPSCQueue.run (SPSCQueue.init (0 : Nat) 2) [SPSCOp.push 3]).numSlots ∧
    u64sub (SPMCQueue.run (SPMCQueue.init (0 : Nat) 0 1)
          [SPMCOp.makeConsumer, SPMCOp.push 5]).m_head
        (((SPMCQueue.run (SPMCQueue.init (0 : Nat) 0 1)
          [SPMCOp.makeConsumer, SPMCOp.push 5]).m_slots 0).tail) ≤
      (SPMCQueue.run (SPMCQueue.init (0 : Nat) 0 1)
        [SPMCOp.makeConsumer, SPMCOp.push 5]).numSlots :=
  ⟨(capacity_invariant_amended (0 : Nat) 2 0 1).1 [SPSCOp.push 3],
   (capacity_invariant_amended (0 : Nat) 2 0 1).2.1
     [SPMCOp.makeConsumer, SPMCOp.push 5] (by decide) 0 (by decide)
     (by decide)⟩

/-- C5 counterexample: the claimed invariant fails on the SPMC queue once
the 64-bit producer cursor wraps.  Capacity 1, one consumer slot:
`2^64 - 1` pushes with no consumer attached, then attach a consumer (its
cursor is set to `2^64 - 1`), then two more pushes.  Both succeed — after
the wrap the lagging consumer is numerically above `head` and so never
lowers `min_tail_snapshot`'s running minimum — leaving a reachable state
with an `Active` slot whose 64-bit distance to the producer cursor is
`2 > capacity = 1`. -/
theorem capacity_invariant_counterexample :
    ((SPMCQueue.run (SPMCQueue.init (0 : Nat) 0 1)
        (List.replicate (U64 - 1) (SPMCOp.push 0) ++
          [SPMCOp.makeConsumer, SPMCOp.push 0, SPMCOp.push 0])).m_slots 0).state =
      SlotState.Active ∧
    (SPMCQueue.run (SPMCQueue.init (0 : Nat) 0 1)
        (List.replicate (U64 - 1) (SPMCOp.push 0) ++
          [SPMCOp.makeConsumer, SPMCOp.push 0, SPMCOp.push 0])).numSlots = 1 ∧
    0 ∈ List.range (SPMCQueue.run (SPMCQueue.init (0 : Nat) 0 1)
        (List.replicate (U64 - 1) (SPMCOp.push 0) ++
          [SPMCOp.makeConsumer, SPMCOp.push 0, SPMCOp.push 0])).maxConsumers ∧
    1 < u64sub (SPMCQueue.run (SPMCQueue.init (0 : Nat) 0 1)
          (List.replicate (U64 - 1) (SPMCOp.push 0) ++
            [SPMCOp.makeConsumer, SPMCOp.push 0, SPMCOp.push 0])).m_head
        (((SPMCQueue.run (SPMCQueue.init (0 : Nat) 0 1)
          (List.replicate (U64 - 1) (SPMCOp.push 0) ++
            [SPMCOp.makeConsumer, SPMCOp.push 0, SPMCOp.push 0])).m_slots 0).tail) := by
  have hrep := SPMCQueue.run_replicate_push (0 : Nat) (U64 - 1)
    (SPMCQueue.init (0 : Nat) 0 1) (by decide) (by decide) (by decide)
  set s1 := SPMCQueue.run (SPMCQueue.init (0 : Nat) 0 1)
    (List.replicate (U64 - 1) (SPMCOp.push (0 : Nat))) with hs1
  have h1head : s1.m_head = U64 - 1 := by
    rw [hrep.1]
    decide
  have h1ns : s1.numSlots = 1 := by
    rw [hrep.2.2.1]
    decide
  have h1mc : s1.maxConsumers = 1 := by
    rw [hrep.2.2.2]
    decide
  have hmkc := SPMCQueue.step_make_consumer_first s1
    (by rw [h1mc]; decide) (by rw [hrep.2.1]; decide)
  set s2 := s1.step SPMCOp.makeConsumer with hs2
  have h2head : s2.m_head = U64 - 1 := hmkc.1.trans h1head
  have h2slot : s2.m_slots 0 =
      { state := SlotState.Active, tail := U64 - 1 } := by
    rw [hmkc.2.1, h1head]
  have h2ns : s2.numSlots = 1 := hmkc.2.2.1.trans h1ns
  have h2mc : s2.maxConsumers = 1 := hmkc.2.2.2.trans h1mc
  have hp1 := SPMCQueue.step_push_single s2 0 h2mc (by rw [h2slot]) h2ns
    (by rw [h2slot, h2head]; decide)
  set s3 := s2.step (SPMCOp.push 0) with hs3
  have h3head : s3.m_head = 0 := by
    rw [hp1.1, h2head]
    decide
  have h3slot : s3.m_slots 0 =
      { state := SlotState.Active, tail := U64 - 1 } :=
    (congrFun hp1.2.1 0).trans h2slot
  have h3ns : s3.numSlots = 1 := hp1.2.2.1.trans h2ns
  have h3mc : s3.maxConsumers = 1 := hp1.2.2.2.trans h2mc
  have hp2 := SPMCQueue.step_push_single s3 0 h3mc (by rw [h3slot]) h3ns
    (by rw [h3slot, h3head]; decide)
  set s4 := s3.step (SPMCOp.push 0) with hs4
  have h4head : s4.m_head = 1 := by
    rw [hp2.1, h3head]
    decide
  have h4slot : s4.m_slots 0 =
      { state := SlotState.Active, tail := U64 - 1 } :=
    (congrFun hp2.2.1 0).trans h3slot
  have h4ns : s4.numSlots = 1 := hp2.2.2.1.trans h3ns
  have h4mc : s4.maxConsumers = 1 := hp2.2.2.2.trans h3mc
  have hsplit : SPMCQueue.run (SPMCQueue.init (0 : Nat) 0 1)
      (List.replicate (U64 - 1) (SPMCOp.push 0) ++
        [SPMCOp.makeConsumer, SPMCOp.push 0, SPMCOp.push 0]) = s4 := by
    rw [SPMCQueue.run_append, ← hs1, SPMCQueue.run_cons, SPMCQueue.run_cons,
      SPMCQueue.run_cons, SPMCQueue.run_nil, hs4, hs3, hs2]
  rw [hsplit]
  refine ⟨by rw [h4slot], h4ns, by rw [h4mc]; decide, ?_⟩
  rw [h4head, h4slot]
  decide

end Mootils
